import Mathlib

/-!
Verification development for the `lutha-calculator` repository
(`src/src/App.tsx`).  The calculator logic is the small state machine
inside the `App` React component: five state fields (`display`,
`previousValue`, `operation`, `waitingForOperand`, `error`) and five
handlers (`inputNumber`, `inputDecimal`, `clear`, `performOperation`,
`calculate`).  Each handler reads the state captured at render time and
queues plain (non-functional) updates, so each handler is a pure function
from the old state to the new state; we embed the handlers as such
functions.

JavaScript numbers are IEEE-754 doubles.  We model them exactly: a value
is either an exact rational, `Infinity`, `-Infinity`, or `NaN`, and an
arithmetic result overflows to an infinity when its exact magnitude
reaches `2^1024` (the double overflow threshold; the true cutoff under
round-to-nearest is `2^1024 - 2^970`, a boundary no claim here touches).
Per-operation rounding of finite doubles and gradual underflow are not
modelled: within this model finite arithmetic is exact.
-/

set_option maxRecDepth 1000000

namespace Lutha

/-!
Kernel-computable rational arithmetic.  The `Rat` operations of the
standard library are `@[irreducible]`, so concrete states could not be
evaluated by `decide` through them.  The functions below compute the same
values through the reducible smart constructors `mkRat` and `Rat.divInt`;
the lemma next to each one shows it equal to the standard operation, so
the model functions below may be read as using ordinary `+ * / ⌊⌋ | |`
on `ℚ`.
-/

/-- Computable rational addition (`qAdd_eq` shows it is `+`). -/
def qAdd (a b : ℚ) : ℚ := mkRat (a.num * b.den + b.num * a.den) (a.den * b.den)

theorem qAdd_eq (a b : ℚ) : qAdd a b = a + b := (Rat.add_def' a b).symm

/-- Computable rational multiplication (`qMul_eq` shows it is `*`). -/
def qMul (a b : ℚ) : ℚ := mkRat (a.num * b.num) (a.den * b.den)

theorem qMul_eq (a b : ℚ) : qMul a b = a * b := by
  rw [qMul, Rat.mul_def, Rat.normalize_eq_mkRat]

/-- Computable rational division (`qDiv_eq` shows it is `/`; division by
zero gives `0`, matching `Rat.div`). -/
def qDiv (a b : ℚ) : ℚ := Rat.divInt (a.num * b.den) (a.den * b.num)

theorem qDiv_eq (a b : ℚ) : qDiv a b = a / b := (Rat.div_def' a b).symm

/-- Computable floor (`qFloor_eq` shows it is `⌊·⌋`). -/
def qFloor (q : ℚ) : ℤ := q.num / (q.den : ℤ)

theorem qFloor_eq (q : ℚ) : qFloor q = ⌊q⌋ := Rat.floor_def.symm

/-- Computable absolute value (`qAbs_eq` shows it is `|·|`). -/
def qAbs (q : ℚ) : ℚ := if q < 0 then -q else q

theorem qAbs_eq (q : ℚ) : qAbs q = |q| := by
  unfold qAbs
  split
  · exact (abs_of_neg (by assumption)).symm
  · exact (abs_of_nonneg (not_lt.mp (by assumption))).symm

/-- Computable power of ten (`pow10_eq` shows it is `(10 : ℚ) ^ k`). -/
def pow10 (k : ℕ) : ℚ := mkRat ((10 ^ k : ℕ) : ℤ) 1

theorem pow10_eq (k : ℕ) : pow10 k = (10 : ℚ) ^ k := by
  rw [pow10, Rat.mkRat_one]
  push_cast
  ring

/-- The four operators of `type Operation` in `App.tsx` (the `null`
alternative is modelled as `Option Op`). -/
inductive Op
  | add
  | sub
  | mul
  | div
  deriving DecidableEq, Repr

/-- A JavaScript number: an exact rational, `Infinity`, `-Infinity`, or
`NaN`. -/
inductive JSVal
  | finite (q : ℚ)
  | inf
  | negInf
  | nan
  deriving DecidableEq, Repr

/-- Overflow threshold of IEEE-754 doubles: exact results whose magnitude
reaches `2^1024` become infinite (`jsMaxMagnitude_eq` shows the value). -/
def jsMaxMagnitude : ℚ := mkRat ((2 ^ 1024 : ℕ) : ℤ) 1

theorem jsMaxMagnitude_eq : jsMaxMagnitude = (2 : ℚ) ^ 1024 := by
  rw [jsMaxMagnitude, Rat.mkRat_one]
  push_cast
  ring

/-- Clamp an exact rational result into a JavaScript number, overflowing
to an infinity at the double overflow threshold. -/
def overflowCheck (q : ℚ) : JSVal :=
  if jsMaxMagnitude ≤ q then JSVal.inf
  else if q ≤ -jsMaxMagnitude then JSVal.negInf
  else JSVal.finite q

/-- JavaScript `isFinite`. -/
def jsIsFinite : JSVal → Bool
  | JSVal.finite _ => true
  | _ => false

/-- JavaScript unary negation. -/
def jsNeg : JSVal → JSVal
  | JSVal.finite q => JSVal.finite (-q)
  | JSVal.inf => JSVal.negInf
  | JSVal.negInf => JSVal.inf
  | JSVal.nan => JSVal.nan

/-- JavaScript `+` on numbers. -/
def jsAdd : JSVal → JSVal → JSVal
  | JSVal.nan, _ | _, JSVal.nan => JSVal.nan
  | JSVal.inf, JSVal.negInf | JSVal.negInf, JSVal.inf => JSVal.nan
  | JSVal.inf, _ | _, JSVal.inf => JSVal.inf
  | JSVal.negInf, _ | _, JSVal.negInf => JSVal.negInf
  | JSVal.finite a, JSVal.finite b => overflowCheck (qAdd a b)

/-- JavaScript `-` on numbers (`a - b = a + (-b)`). -/
def jsSub (a b : JSVal) : JSVal := jsAdd a (jsNeg b)

/-- JavaScript `*` on numbers. -/
def jsMul : JSVal → JSVal → JSVal
  | JSVal.nan, _ | _, JSVal.nan => JSVal.nan
  | JSVal.finite a, JSVal.finite b => overflowCheck (qMul a b)
  | JSVal.inf, JSVal.inf | JSVal.negInf, JSVal.negInf => JSVal.inf
  | JSVal.inf, JSVal.negInf | JSVal.negInf, JSVal.inf => JSVal.negInf
  | JSVal.inf, JSVal.finite q | JSVal.finite q, JSVal.inf =>
      if q = 0 then JSVal.nan else if 0 < q then JSVal.inf else JSVal.negInf
  | JSVal.negInf, JSVal.finite q | JSVal.finite q, JSVal.negInf =>
      if q = 0 then JSVal.nan else if 0 < q then JSVal.negInf else JSVal.inf

/-- JavaScript `/` on numbers (signed zero is not distinguished). -/
def jsDiv : JSVal → JSVal → JSVal
  | JSVal.nan, _ | _, JSVal.nan => JSVal.nan
  | JSVal.inf, JSVal.inf | JSVal.inf, JSVal.negInf
  | JSVal.negInf, JSVal.inf | JSVal.negInf, JSVal.negInf => JSVal.nan
  | JSVal.inf, JSVal.finite q => if 0 ≤ q then JSVal.inf else JSVal.negInf
  | JSVal.negInf, JSVal.finite q => if 0 ≤ q then JSVal.negInf else JSVal.inf
  | JSVal.finite _, JSVal.inf | JSVal.finite _, JSVal.negInf => JSVal.finite 0
  | JSVal.finite a, JSVal.finite b =>
      if b = 0 then
        if a = 0 then JSVal.nan else if 0 < a then JSVal.inf else JSVal.negInf
      else overflowCheck (qDiv a b)

/-- JavaScript `Math.round`: round half toward positive infinity,
`Math.round x = Float.floor (x + 0.5)`. -/
def jsRound : JSVal → JSVal
  | JSVal.finite q => JSVal.finite (qFloor (qAdd q (mkRat 1 2)) : ℤ)
  | v => v

/-- Numeric value of a list of decimal digit characters (most significant
first). -/
def natOfDigits (l : List Char) : ℕ :=
  l.foldl (fun n c => 10 * n + (c.toNat - 48)) 0

/-- One decimal digit character? -/
def isDigitChar (c : Char) : Bool := c.isDigit

/-- JavaScript `parseFloat`, on the exact-rational model: skip leading
spaces, read an optional sign, then either a prefix `Infinity` or a
longest prefix of the form `digits [. digits] [e|E [sign] digits]` with at
least one mantissa digit; everything after that prefix is ignored.  `NaN`
when no numeric prefix exists.  Exact parsed magnitudes at or above the
double overflow threshold give an infinity (JavaScript returns `Infinity`
for such literals). -/
def parseFloat (s : String) : JSVal :=
  let cs := s.data.dropWhile (fun c => c = ' ')
  let signNeg : Bool := cs.head? = some '-'
  let cs := if cs.head? = some '-' ∨ cs.head? = some '+' then cs.tail else cs
  if ('I' :: 'n' :: 'f' :: 'i' :: 'n' :: 'i' :: 't' :: 'y' :: []).isPrefixOf cs then
    if signNeg then JSVal.negInf else JSVal.inf
  else
    let intPart := cs.takeWhile isDigitChar
    let rest₁ := cs.dropWhile isDigitChar
    let fracPart :=
      if rest₁.head? = some '.' then rest₁.tail.takeWhile isDigitChar else []
    let rest₂ :=
      if rest₁.head? = some '.' then rest₁.tail.dropWhile isDigitChar else rest₁
    if intPart = [] ∧ fracPart = [] then JSVal.nan
    else
      let mantissa : ℚ :=
        qAdd (natOfDigits intPart : ℚ)
          (qDiv (natOfDigits fracPart : ℚ) (pow10 fracPart.length))
      let expVal : ℤ :=
        if rest₂.head? = some 'e' ∨ rest₂.head? = some 'E' then
          let ecs := rest₂.tail
          let eNeg : Bool := ecs.head? = some '-'
          let ecs := if ecs.head? = some '-' ∨ ecs.head? = some '+' then ecs.tail else ecs
          let eDigits := ecs.takeWhile isDigitChar
          if eDigits = [] then 0
          else if eNeg then -(natOfDigits eDigits : ℤ) else (natOfDigits eDigits : ℤ)
        else 0
      let value : ℚ :=
        if 0 ≤ expVal then qMul mantissa (pow10 expVal.toNat)
        else qDiv mantissa (pow10 (-expVal).toNat)
      overflowCheck (if signNeg then -value else value)

/-- Drop trailing zero characters. -/
def dropTrailingZeros (l : List Char) : List Char :=
  (l.reverse.dropWhile (fun c => c = '0')).reverse

/-- Decimal digit characters of a natural number, left-padded with zeros
to width `w`. -/
def padLeftZeros (w : ℕ) (s : String) : String :=
  String.mk (List.replicate (w - s.data.length) '0') ++ s

/-- Plain decimal rendering of a positive rational whose denominator
divides `10^9` (every rounded calculator result has this form): integer
part, then the fractional digits with trailing zeros removed. -/
def posDecString (q : ℚ) : String :=
  let n : ℕ := (qFloor (qMul q (pow10 9))).toNat
  let ip : ℕ := n / 1000000000
  let fp : ℕ := n % 1000000000
  let frac := dropTrailingZeros (padLeftZeros 9 (Nat.repr fp)).data
  if frac = [] then Nat.repr ip else Nat.repr ip ++ "." ++ String.mk frac

/-- Exponential rendering `m e±k` of a positive rational, as JavaScript
uses for magnitudes at or above `10^21` or below `10^-6`. -/
def posExpString (q : ℚ) : String :=
  let e : ℤ := Int.log 10 q
  let m : ℚ := if 0 ≤ e then qDiv q (pow10 e.toNat) else qMul q (pow10 (-e).toNat)
  posDecString m ++ "e" ++ (if e < 0 then "-" else "+") ++ Nat.repr e.natAbs

/-- JavaScript `String(·)` on numbers, on the exact-rational model:
`NaN`/`Infinity` spellings, `0`, otherwise sign plus plain decimal form,
switching to exponential notation at the JavaScript thresholds. -/
def jsToString : JSVal → String
  | JSVal.nan => "NaN"
  | JSVal.inf => "Infinity"
  | JSVal.negInf => "-Infinity"
  | JSVal.finite q =>
      if q = 0 then "0"
      else
        (if q < 0 then "-" else "") ++
          (if pow10 21 ≤ qAbs q ∨ qAbs q < mkRat 1 1000000 then posExpString (qAbs q)
           else posDecString (qAbs q))

/-- The component state of `App` (`App.tsx` lines 7-11): `display`
defaults to `"0"`, `previousValue` and `operation` and `error` to absent,
`waitingForOperand` to `false`. -/
structure CalcState where
  display : String
  previousValue : Option JSVal
  operation : Option Op
  waitingForOperand : Bool
  error : Option String
  deriving DecidableEq, Repr

/-- The initial component state. -/
def initState : CalcState :=
  { display := "0", previousValue := none, operation := none,
    waitingForOperand := false, error := none }

/-- `inputNumber` (`App.tsx` lines 13-21): when waiting for an operand,
the digit replaces the display and clears the flag and the error;
otherwise it is appended to the display, a lone `"0"` being replaced. -/
def inputNumber (s : CalcState) (num : String) : CalcState :=
  if s.waitingForOperand then
    { s with display := num, waitingForOperand := false, error := none }
  else
    { s with display := if s.display = "0" then num else s.display ++ num }

/-- `inputDecimal` (`App.tsx` lines 23-30): when waiting for an operand,
the display restarts at `"0."` and the flag is cleared; otherwise a dot is
appended only when none is present (`display.indexOf of dot is -1`). -/
def inputDecimal (s : CalcState) : CalcState :=
  if s.waitingForOperand then
    { s with display := "0.", waitingForOperand := false }
  else if '.' ∈ s.display.data then s
  else { s with display := s.display ++ "." }

/-- `clear` (`App.tsx` lines 32-38): reset every field. -/
def clear (_s : CalcState) : CalcState := initState

/-- The `currentValue` of `performOperation`: `previousValue || 0`; in the
branch where it is read `previousValue` is non-null, so only the falsy
numbers `0` (same value) and `NaN` (never actually stored) differ. -/
def currentOf (pv : JSVal) : JSVal :=
  if pv = JSVal.nan ∨ pv = JSVal.finite 0 then JSVal.finite 0 else pv

/-- The `switch (operation)` arithmetic of `performOperation`. -/
def jsApply : Op → JSVal → JSVal → JSVal
  | Op.add, a, b => jsAdd a b
  | Op.sub, a, b => jsSub a b
  | Op.mul, a, b => jsMul a b
  | Op.div, a, b => jsDiv a b

/-- The raw `result` computed by `performOperation` before the finiteness
check and the rounding. -/
def rawResult (pv : JSVal) (o : Op) (iv : JSVal) : JSVal :=
  jsApply o (currentOf pv) iv

/-- The rounding line of `performOperation` (`App.tsx` line 82):
`Math.round (result * 1000000000) / 1000000000`.  Note that the
multiplication itself can overflow to `Infinity` for large finite
results. -/
def jsRound9 (r : JSVal) : JSVal :=
  jsDiv (jsRound (jsMul r (JSVal.finite 1000000000))) (JSVal.finite 1000000000)

/-- `performOperation` (`App.tsx` lines 40-94).  Parse the display; an
unparseable display sets `Invalid input` and stops.  With no accumulator,
store the parsed value.  With an accumulator and a pending operation,
apply it: a zero divisor sets `Cannot divide by zero` and stops, a
non-finite result sets `Result is too large` and stops, otherwise the
rounded result becomes display and accumulator.  Every non-error path
finishes by setting the waiting flag and recording the next operation.
(The source's `try/catch` is dead: nothing in the `try` block throws.) -/
def performOperation (s : CalcState) (nextOp : Option Op) : CalcState :=
  let inputValue := parseFloat s.display
  if inputValue = JSVal.nan then
    { s with error := some "Invalid input" }
  else
    match s.previousValue with
    | none =>
        { s with previousValue := some inputValue,
                 waitingForOperand := true, operation := nextOp }
    | some pv =>
        match s.operation with
        | none => { s with waitingForOperand := true, operation := nextOp }
        | some o =>
            if o = Op.div ∧ inputValue = JSVal.finite 0 then
              { s with error := some "Cannot divide by zero" }
            else
              let result := rawResult pv o inputValue
              if jsIsFinite result = false then
                { s with error := some "Result is too large" }
              else
                let rounded := jsRound9 result
                { s with display := jsToString rounded,
                         previousValue := some rounded,
                         waitingForOperand := true, operation := nextOp }

/-- `calculate` (`App.tsx` lines 96-101): run `performOperation null`,
then clear the pending operation and the accumulator and set the waiting
flag (all handler reads see the same pre-event state, so the later
setters simply override those fields). -/
def calculate (s : CalcState) : CalcState :=
  { performOperation s none with
      operation := none, previousValue := none, waitingForOperand := true }

/-- The user-input events the component wires up (buttons and the keydown
handler): digits `0`-`9`, the decimal point, the four operators, equals,
and clear. -/
inductive Event
  | digit (d : Fin 10)
  | dot
  | opKey (o : Op)
  | eq
  | clearKey
  deriving DecidableEq, Repr

/-- The single-character string a digit key passes to `inputNumber`. -/
def digitStr (d : Fin 10) : String := Nat.repr d.val

/-- One atomic state transition per input event. -/
def step (s : CalcState) : Event → CalcState
  | Event.digit d => inputNumber s (digitStr d)
  | Event.dot => inputDecimal s
  | Event.opKey o => performOperation s (some o)
  | Event.eq => calculate s
  | Event.clearKey => clear s

/-- The state after a sequence of input events from the initial state. -/
def run (evs : List Event) : CalcState := evs.foldl step initState

/-- A state is reachable when some event sequence produces it. -/
def Reachable (s : CalcState) : Prop := ∃ evs, run evs = s

/-!  Spec-side definitions, used to state the claims. -/

/-- The display shape asserted by the spec's invariant section: only
digit characters and at most one decimal point. -/
def NumeralOnly (d : String) : Prop :=
  (∀ c ∈ d.data, c.isDigit = true ∨ c = '.') ∧ d.data.count '.' ≤ 1

instance (d : String) : Decidable (NumeralOnly d) := by
  unfold NumeralOnly; infer_instance

/-- Modelled from the spec: rounding a result to 9 decimal places
(half up, as `Math.round` does). -/
def round9Spec (r : ℚ) : ℚ := ((⌊r * 1000000000 + 1/2⌋ : ℤ) : ℚ) / 1000000000

/-- Modelled from the spec: `calculate` as the spec describes it — call
`select_operation(none)`, then clear pending operation and accumulator and
set the input-mode flag, leaving display (and error) as
`select_operation(none)` produced them. -/
def calcAsSpecified (s : CalcState) : CalcState :=
  let t := performOperation s none
  { display := t.display, error := t.error,
    operation := none, previousValue := none, waitingForOperand := true }

/-- Is the accumulator (when present) a finite number? -/
def accFinite (s : CalcState) : Bool :=
  match s.previousValue with
  | none => true
  | some v => jsIsFinite v

/-- Apply a sequence of digit keys through `inputNumber`. -/
def foldDigits (s : CalcState) (ds : List (Fin 10)) : CalcState :=
  ds.foldl (fun t d => inputNumber t (digitStr d)) s

/-- Concatenation of the digit strings of a digit sequence. -/
def joinDigits : List (Fin 10) → String
  | [] => ""
  | d :: ds => digitStr d ++ joinDigits ds

/-!  Helper lemmas about the model. -/

/-- Magnitudes bounded by `10^24` are far below the double overflow
threshold. -/
theorem lt_jsMax_of_small (q : ℚ) (h : |q| < 1000000000000000000000000) :
    |q| < 2 ^ 1024 := by
  refine lt_of_lt_of_le h ?_
  calc (1000000000000000000000000 : ℚ) ≤ 2 ^ 80 := by norm_num
    _ ≤ 2 ^ 1024 := pow_le_pow_right₀ one_le_two (by norm_num)

/-- `overflowCheck` keeps values strictly inside the threshold finite. -/
theorem overflowCheck_finite (q : ℚ) (h : |q| < 2 ^ 1024) :
    overflowCheck q = JSVal.finite q := by
  have h1 : ¬ jsMaxMagnitude ≤ q := by
    rw [jsMaxMagnitude_eq]
    intro hle
    exact absurd (lt_of_le_of_lt hle (lt_of_le_of_lt (le_abs_self q) h)) (lt_irrefl _)
  have h2 : ¬ q ≤ -jsMaxMagnitude := by
    rw [jsMaxMagnitude_eq]
    intro hle
    have := neg_abs_le q
    have habs : -(2 ^ 1024 : ℚ) < q := by
      have := neg_lt_neg h
      calc -(2 ^ 1024 : ℚ) < -|q| := this
        _ ≤ q := neg_abs_le q
    exact absurd (lt_of_le_of_lt hle habs) (lt_irrefl _)
  rw [overflowCheck, if_neg h1, if_neg h2]

/-- `jsDiv` on finite values with a nonzero divisor and an in-range
quotient is exact division. -/
theorem jsDiv_finite (a b : ℚ) (hb : ¬ b = 0) (h : |a / b| < 2 ^ 1024) :
    jsDiv (JSVal.finite a) (JSVal.finite b) = JSVal.finite (a / b) := by
  simp only [jsDiv, if_neg hb, qDiv_eq]
  exact overflowCheck_finite _ h

theorem jsRound9_finite (r : ℚ) (h : |r * 1000000000| < 2 ^ 1024) :
    jsRound9 (JSVal.finite r) = JSVal.finite (round9Spec r) := by
  have hhalf : (mkRat 1 2 : ℚ) = 1 / 2 := by
    rw [Rat.mkRat_eq_divInt, Rat.divInt_eq_div]
    norm_num
  have hmul : jsMul (JSVal.finite r) (JSVal.finite 1000000000) =
      JSVal.finite (r * 1000000000) := by
    simp only [jsMul, qMul_eq]
    exact overflowCheck_finite _ h
  have hround : jsRound (JSVal.finite (r * 1000000000)) =
      JSVal.finite ((⌊r * 1000000000 + 1 / 2⌋ : ℤ) : ℚ) := by
    simp only [jsRound, qAdd_eq, hhalf, qFloor_eq]
  have hb1 : ((⌊r * 1000000000 + 1 / 2⌋ : ℤ) : ℚ) ≤ r * 1000000000 + 1 / 2 :=
    Int.floor_le _
  have hb2 : r * 1000000000 + 1 / 2 - 1 < ((⌊r * 1000000000 + 1 / 2⌋ : ℤ) : ℚ) :=
    Int.sub_one_lt_floor _
  have habs := abs_lt.mp h
  have hbound : |((⌊r * 1000000000 + 1 / 2⌋ : ℤ) : ℚ) / 1000000000| < 2 ^ 1024 := by
    rw [abs_div, abs_of_pos (by norm_num : (0:ℚ) < 1000000000),
      div_lt_iff₀ (by norm_num : (0:ℚ) < 1000000000), abs_lt]
    have hM : (1 : ℚ) ≤ 2 ^ 1024 := one_le_pow₀ one_le_two
    constructor <;> nlinarith [habs.1, habs.2, hb1, hb2, hM]
  rw [jsRound9, hmul, hround,
    jsDiv_finite _ _ (by norm_num) hbound, round9Spec]

/-- Unfolding of `performOperation` on the successful-application path. -/
theorem performOperation_success (s : CalcState) (nextOp : Option Op)
    (pv : JSVal) (o : Op)
    (hpv : s.previousValue = some pv) (ho : s.operation = some o)
    (hparse : ¬ parseFloat s.display = JSVal.nan)
    (hdz : ¬ (o = Op.div ∧ parseFloat s.display = JSVal.finite 0))
    (hfin : jsIsFinite (rawResult pv o (parseFloat s.display)) = true) :
    performOperation s nextOp =
      { s with
        display := jsToString (jsRound9 (rawResult pv o (parseFloat s.display))),
        previousValue := some (jsRound9 (rawResult pv o (parseFloat s.display))),
        waitingForOperand := true, operation := nextOp } := by
  rw [performOperation]
  simp only [hpv, ho, if_neg hparse, if_neg hdz, hfin]
  simp

/-- Unfolding of `performOperation` on the unparseable-display path. -/
theorem performOperation_parsefail (s : CalcState) (nextOp : Option Op)
    (hparse : parseFloat s.display = JSVal.nan) :
    performOperation s nextOp = { s with error := some "Invalid input" } := by
  rw [performOperation]
  simp [hparse]

/-- Unfolding of `performOperation` when no accumulator is held. -/
theorem performOperation_noacc (s : CalcState) (nextOp : Option Op)
    (hparse : ¬ parseFloat s.display = JSVal.nan)
    (hpv : s.previousValue = none) :
    performOperation s nextOp =
      { s with previousValue := some (parseFloat s.display),
               waitingForOperand := true, operation := nextOp } := by
  rw [performOperation]
  simp [hparse, hpv]

/-- Unfolding of `performOperation` with an accumulator but no pending
operation. -/
theorem performOperation_noop (s : CalcState) (nextOp : Option Op) (pv : JSVal)
    (hparse : ¬ parseFloat s.display = JSVal.nan)
    (hpv : s.previousValue = some pv) (ho : s.operation = none) :
    performOperation s nextOp =
      { s with waitingForOperand := true, operation := nextOp } := by
  rw [performOperation]
  simp [hparse, hpv, ho]

/-- Unfolding of `performOperation` on the division-by-zero path. -/
theorem performOperation_divzero (s : CalcState) (nextOp : Option Op)
    (pv : JSVal)
    (hpv : s.previousValue = some pv) (ho : s.operation = some Op.div)
    (hz : parseFloat s.display = JSVal.finite 0) :
    performOperation s nextOp = { s with error := some "Cannot divide by zero" } := by
  rw [performOperation]
  simp only [hpv, ho, hz]
  simp

/-- Unfolding of `performOperation` on the non-finite-result path. -/
theorem performOperation_overflow (s : CalcState) (nextOp : Option Op)
    (pv : JSVal) (o : Op)
    (hpv : s.previousValue = some pv) (ho : s.operation = some o)
    (hparse : ¬ parseFloat s.display = JSVal.nan)
    (hdz : ¬ (o = Op.div ∧ parseFloat s.display = JSVal.finite 0))
    (hfin : jsIsFinite (rawResult pv o (parseFloat s.display)) = false) :
    performOperation s nextOp = { s with error := some "Result is too large" } := by
  rw [performOperation]
  simp only [hpv, ho, if_neg hparse, if_neg hdz, hfin]
  simp

/-!  Reachability invariants. -/

/-- The invariant behind claim C8: a pending operation implies a held
accumulator. -/
def OpNeedsAcc (s : CalcState) : Prop :=
  s.operation ≠ none → s.previousValue ≠ none

theorem opNeedsAcc_step (s : CalcState) (e : Event) (h : OpNeedsAcc s) :
    OpNeedsAcc (step s e) := by
  cases e with
  | digit d =>
      simp only [step, inputNumber]
      split <;> exact h
  | dot =>
      simp only [step, inputDecimal]
      split
      · exact h
      · split <;> exact h
  | opKey o =>
      show OpNeedsAcc (performOperation s (some o))
      by_cases hparse : parseFloat s.display = JSVal.nan
      · rw [performOperation_parsefail s _ hparse]; exact h
      · cases hpv : s.previousValue with
        | none =>
            rw [performOperation_noacc s _ hparse hpv]
            intro _; simp
        | some pv =>
            cases ho : s.operation with
            | none =>
                rw [performOperation_noop s _ pv hparse hpv ho]
                intro _; simp [hpv]
            | some o' =>
                by_cases hdz : o' = Op.div ∧ parseFloat s.display = JSVal.finite 0
                · rw [performOperation_divzero s _ pv hpv (hdz.1 ▸ ho) hdz.2]
                  intro hop
                  exact fun hc => (h (by simp [ho]) (by simpa using hc))
                · cases hfin : jsIsFinite (rawResult pv o' (parseFloat s.display)) with
                  | false =>
                      rw [performOperation_overflow s _ pv o' hpv ho hparse hdz hfin]
                      intro hop
                      exact fun hc => (h (by simp [ho]) (by simpa using hc))
                  | true =>
                      rw [performOperation_success s _ pv o' hpv ho hparse hdz hfin]
                      intro _; simp
  | eq =>
      show OpNeedsAcc (calculate s)
      intro hop
      simp [calculate] at hop
  | clearKey =>
      intro hop
      simp [step, clear, initState] at hop

theorem opNeedsAcc_run (evs : List Event) : OpNeedsAcc (run evs) := by
  have gen : ∀ (l : List Event) (s : CalcState), OpNeedsAcc s →
      OpNeedsAcc (List.foldl step s l) := by
    intro l
    induction l with
    | nil => exact fun s h => h
    | cons e t ih => exact fun s h => ih _ (opNeedsAcc_step s e h)
  exact gen evs initState (by intro h; simp [initState] at h)

/-!  The claims. -/

/-- C5: with an accumulator held and pending operation divide, a
displayed divisor parsing to exactly zero makes `select_operation` set
the divide-by-zero error and leave every other state component (display,
accumulator, pending operation, input-mode flag) unmodified. -/
theorem claim5_divide_by_zero (s : CalcState) (nextOp : Option Op) (pv : JSVal)
    (hpv : s.previousValue = some pv) (ho : s.operation = some Op.div)
    (hz : parseFloat s.display = JSVal.finite 0) :
    performOperation s nextOp = { s with error := some "Cannot divide by zero" } :=
  performOperation_divzero s nextOp pv hpv ho hz

/-- Witness for C5 at the concrete state reached by `5 / 0`. -/
theorem claim5_witness :
    performOperation
      { display := "0", previousValue := some (JSVal.finite 5),
        operation := some Op.div, waitingForOperand := false, error := none } none =
      { display := "0", previousValue := some (JSVal.finite 5),
        operation := some Op.div, waitingForOperand := false,
        error := some "Cannot divide by zero" } :=
  claim5_divide_by_zero _ none (JSVal.finite 5) rfl rfl (by decide)

/-- C7: `calculate()` is exactly the spec's composition — run
`select_operation(none)`, then clear pending operation and accumulator
and set the input-mode flag, keeping the display (and error) that
`select_operation(none)` produced. -/
theorem claim7_calculate_refines_spec (s : CalcState) :
    calculate s = calcAsSpecified s := rfl

/-- C10: `input_decimal_point` never touches the error field — unlike
`input_digit` it does not clear a present error — and with the input-mode
flag set it starts the fresh operand `"0."` and clears the flag. -/
theorem claim10_decimal_preserves_error (s : CalcState) :
    (inputDecimal s).error = s.error ∧
      (s.waitingForOperand = true →
        (inputDecimal s).display = "0." ∧ (inputDecimal s).waitingForOperand = false) := by
  unfold inputDecimal
  split
  · exact ⟨rfl, fun _ => ⟨rfl, rfl⟩⟩
  · next hw =>
      split
      · exact ⟨rfl, fun h => absurd h (by simpa using hw)⟩
      · exact ⟨rfl, fun h => absurd h (by simpa using hw)⟩

/-- Witness for C10: a decimal point entered in input mode with an error
present keeps the error. -/
theorem claim10_witness :
    (inputDecimal
      { display := "5", previousValue := none, operation := none,
        waitingForOperand := true, error := some "Invalid input" }).error =
      some "Invalid input" ∧
    (inputDecimal
      { display := "5", previousValue := none, operation := none,
        waitingForOperand := true, error := some "Invalid input" }).display = "0." := by
  refine ⟨(claim10_decimal_preserves_error _).1, ?_⟩
  exact ((claim10_decimal_preserves_error _).2 rfl).1

/-- C2 as stated is false: when the input-mode flag is clear,
`input_digit` appends to the display and leaves a present error message
untouched (the `else` branch of `inputNumber` never calls `setError`).
The state used is reachable by `5 / 0 +`. -/
theorem claim2_counterexample :
    ¬ (∀ (s : CalcState) (num : String), s.error ≠ none →
        (inputNumber s num).error = none ∧ (clear s).error = none) := by
  intro h
  have h2 := h
    { display := "0", previousValue := some (JSVal.finite 5),
      operation := some Op.div, waitingForOperand := false,
      error := some "Cannot divide by zero" } "1" (by decide)
  exact absurd h2.1 (by decide)

/-- C2 amended: `clear()` always clears the error, and digit input clears
the error exactly when the input-mode flag is set; with the flag clear it
leaves the error unchanged. -/
theorem claim2_amended (s : CalcState) (num : String) :
    (clear s).error = none ∧
      (s.waitingForOperand = true → (inputNumber s num).error = none) ∧
      (s.waitingForOperand = false → (inputNumber s num).error = s.error) := by
  refine ⟨rfl, ?_, ?_⟩ <;> intro hw <;> simp [inputNumber, hw]

/-- Witness for C2 amended: digit input in input mode clears the error;
with the flag clear the divide-by-zero message survives digit input. -/
theorem claim2_amended_witness :
    (inputNumber
      { display := "0", previousValue := some (JSVal.finite 5),
        operation := some Op.div, waitingForOperand := true,
        error := some "Cannot divide by zero" } "1").error = none ∧
    (inputNumber
      { display := "0", previousValue := some (JSVal.finite 5),
        operation := some Op.div, waitingForOperand := false,
        error := some "Cannot divide by zero" } "1").error =
      some "Cannot divide by zero" :=
  ⟨(claim2_amended _ "1").2.1 rfl, (claim2_amended _ "1").2.2 rfl⟩

/-- C8: in every reachable state, a pending operation implies a held
accumulator. -/
theorem claim8_pending_op_needs_accumulator (s : CalcState) (hr : Reachable s)
    (hop : s.operation ≠ none) : s.previousValue ≠ none := by
  obtain ⟨evs, rfl⟩ := hr
  exact opNeedsAcc_run evs hop

/-- Witness for C8 at the reachable state `5 +`. -/
theorem claim8_witness :
    (run [Event.digit 5, Event.opKey Op.add]).previousValue ≠ none :=
  claim8_pending_op_needs_accumulator _ ⟨[Event.digit 5, Event.opKey Op.add], rfl⟩
    (by decide)

/-- C1 as stated is false: `performOperation` never consults the
input-mode flag, so a second operator press applies the pending operation
with the still-displayed previous operand.  At the state reached by
`5 +` (display `"5"`, accumulator `5`, pending add, flag set), pressing
`*` computes `5 + 5` and changes the display to `"10"`. -/
theorem claim1_counterexample :
    ¬ (∀ (s : CalcState) (o' : Op),
        s.previousValue.isSome = true → s.operation.isSome = true →
        s.waitingForOperand = true →
        (performOperation s (some o')).operation = some o' ∧
        (performOperation s (some o')).display = s.display ∧
        (performOperation s (some o')).previousValue = s.previousValue) := by
  intro h
  have h2 := h
    { display := "5", previousValue := some (JSVal.finite 5),
      operation := some Op.add, waitingForOperand := true, error := none }
    Op.mul rfl rfl rfl
  exact absurd h2.2.1 (by decide)

/-- C1 amended: with the input-mode flag set, an accumulator held and a
pending operation, selecting another operator `o'` does record `o'` as
the new pending operation and keeps the flag set, but it first applies
the pending operation between the accumulator and the parsed display
value: the rounded result becomes both the display and the accumulator
(when the display parses, the divisor is nonzero and the result is
finite). -/
theorem claim1_amended (s : CalcState) (o' : Op) (pv : JSVal) (o : Op)
    (hw : s.waitingForOperand = true)
    (hpv : s.previousValue = some pv) (ho : s.operation = some o)
    (hparse : ¬ parseFloat s.display = JSVal.nan)
    (hdz : ¬ (o = Op.div ∧ parseFloat s.display = JSVal.finite 0))
    (hfin : jsIsFinite (rawResult pv o (parseFloat s.display)) = true) :
    performOperation s (some o') =
      { s with
        display := jsToString (jsRound9 (rawResult pv o (parseFloat s.display))),
        previousValue := some (jsRound9 (rawResult pv o (parseFloat s.display))),
        waitingForOperand := true, operation := some o' } :=
  performOperation_success s (some o') pv o hpv ho hparse hdz hfin

/-- Witness for C1 amended: `5 + *` yields display `"10"`, accumulator
`10`, pending multiply. -/
theorem claim1_amended_witness :
    performOperation
      { display := "5", previousValue := some (JSVal.finite 5),
        operation := some Op.add, waitingForOperand := true, error := none }
      (some Op.mul) =
      { display := "10", previousValue := some (JSVal.finite 10),
        operation := some Op.mul, waitingForOperand := true, error := none } :=
  (claim1_amended _ Op.mul (JSVal.finite 5) Op.add rfl rfl rfl
    (by decide) (by decide) (by decide)).trans (by decide)

/-- An event trace that overflows during the rounding step: type
`1` followed by 150 zeros, press `*` (stores `10^150`), press `*` again
(the claim-C1 behaviour applies `*` to the stale operand, giving the
finite result `10^300`, which passes the `isFinite` guard but overflows
at `result * 10^9`).  The resulting state stores `Infinity` as the
accumulator and displays `"Infinity"`. -/
def overflowTrace : List Event :=
  Event.digit 1 :: (List.replicate 150 (Event.digit 0) ++
    [Event.opKey Op.mul, Event.opKey Op.mul])

/-- C6 as stated is false in its second half: non-finite values are
stored.  After `overflowTrace` the accumulator is `Infinity` and the
display reads `"Infinity"` (the `isFinite` guard runs before the
rounding multiplication `result * 10^9`, which itself overflows). -/
theorem claim6_counterexample :
    ¬ ((∀ (s : CalcState) (nextOp : Option Op) (pv : JSVal) (o : Op),
          s.previousValue = some pv → s.operation = some o →
          ¬ parseFloat s.display = JSVal.nan →
          ¬ (o = Op.div ∧ parseFloat s.display = JSVal.finite 0) →
          jsIsFinite (rawResult pv o (parseFloat s.display)) = false →
          performOperation s nextOp = { s with error := some "Result is too large" }) ∧
        (∀ s : CalcState, Reachable s →
          accFinite s = true ∧ s.display ≠ "Infinity" ∧
          s.display ≠ "-Infinity" ∧ s.display ≠ "NaN")) := by
  intro h
  have h2 := h.2 (run overflowTrace) ⟨overflowTrace, rfl⟩
  exact absurd h2.1 (by decide)

/-- C6 amended: when applying the pending operation gives a non-finite
result, `select_operation` fails with the overflow error and leaves
every other state component unmodified; however, non-finite values can
still be stored — a finite result can overflow to `Infinity` inside the
rounding step `result * 10^9` and is then stored as display and
accumulator (see `overflowTrace`). -/
theorem claim6_amended (s : CalcState) (nextOp : Option Op) (pv : JSVal) (o : Op)
    (hpv : s.previousValue = some pv) (ho : s.operation = some o)
    (hparse : ¬ parseFloat s.display = JSVal.nan)
    (hdz : ¬ (o = Op.div ∧ parseFloat s.display = JSVal.finite 0))
    (hfin : jsIsFinite (rawResult pv o (parseFloat s.display)) = false) :
    performOperation s nextOp = { s with error := some "Result is too large" } :=
  performOperation_overflow s nextOp pv o hpv ho hparse hdz hfin

/-- Witness for C6 amended: adding `1` to an infinite accumulator sets
the overflow error and changes nothing else. -/
theorem claim6_amended_witness :
    performOperation
      { display := "1", previousValue := some JSVal.inf,
        operation := some Op.add, waitingForOperand := true, error := none } none =
      { display := "1", previousValue := some JSVal.inf,
        operation := some Op.add, waitingForOperand := true,
        error := some "Result is too large" } :=
  claim6_amended _ none JSVal.inf Op.add rfl rfl (by decide) (by decide) (by decide)

/-- C3 as stated is false: the `isFinite` guard runs before the rounding
line, and the rounding line's multiplication `result * 10^9` can itself
overflow, storing `Infinity` instead of the rounded exact result.  With
display `"2e300"`, accumulator `2·10^300` and pending add, the raw result
`4·10^300` is finite, yet the stored accumulator is `Infinity`, not the
rounded value. -/
theorem claim3_counterexample :
    ¬ (∀ (s : CalcState) (nextOp : Option Op) (pv : JSVal) (o : Op) (r : ℚ),
        s.previousValue = some pv → s.operation = some o →
        ¬ parseFloat s.display = JSVal.nan →
        ¬ (o = Op.div ∧ parseFloat s.display = JSVal.finite 0) →
        rawResult pv o (parseFloat s.display) = JSVal.finite r →
        performOperation s nextOp =
          { s with display := jsToString (JSVal.finite (round9Spec r)),
                   previousValue := some (JSVal.finite (round9Spec r)),
                   waitingForOperand := true, operation := nextOp }) := by
  intro h
  have h2 := h
    { display := "2e300", previousValue := some (parseFloat "2e300"),
      operation := some Op.add, waitingForOperand := true, error := none }
    none (parseFloat "2e300") Op.add (qMul 4 (pow10 300))
    rfl rfl (by decide) (by decide) (by decide)
  have h3 : (performOperation
      { display := "2e300", previousValue := some (parseFloat "2e300"),
        operation := some Op.add, waitingForOperand := true, error := none }
      none).previousValue = some JSVal.inf := by decide
  rw [h2] at h3
  simp at h3

/-- C3 amended: for every successful application of a pending operation
whose exact result `r` additionally satisfies `|r * 10^9| < 2^1024` (so
the rounding multiplication does not overflow), the stored value is the
exact arithmetic result rounded to 9 decimal places, and it becomes both
the display and the accumulator; in particular `0.1 + 0.2 =` from the
initial state displays `"0.3"`. -/
theorem claim3_amended :
    (∀ (s : CalcState) (nextOp : Option Op) (pv : JSVal) (o : Op) (r : ℚ),
        s.previousValue = some pv → s.operation = some o →
        ¬ parseFloat s.display = JSVal.nan →
        ¬ (o = Op.div ∧ parseFloat s.display = JSVal.finite 0) →
        rawResult pv o (parseFloat s.display) = JSVal.finite r →
        |r * 1000000000| < 2 ^ 1024 →
        performOperation s nextOp =
          { s with display := jsToString (JSVal.finite (round9Spec r)),
                   previousValue := some (JSVal.finite (round9Spec r)),
                   waitingForOperand := true, operation := nextOp }) ∧
    (run [Event.digit 0, Event.dot, Event.digit 1, Event.opKey Op.add,
          Event.digit 0, Event.dot, Event.digit 2, Event.eq]).display = "0.3" := by
  constructor
  · intro s nextOp pv o r hpv ho hparse hdz hraw hb
    have hfin : jsIsFinite (rawResult pv o (parseFloat s.display)) = true := by
      rw [hraw]; rfl
    rw [performOperation_success s nextOp pv o hpv ho hparse hdz hfin,
      hraw, jsRound9_finite r hb]
  · decide

/-- Witness for C3 amended, at the state reached by `0.1 + 0.2` just
before the equals key: applying the pending addition stores the rounded
exact sum `0.3`. -/
theorem claim3_amended_witness :
    performOperation
      { display := "0.2", previousValue := some (parseFloat "0.1"),
        operation := some Op.add, waitingForOperand := false, error := none }
      none =
      { display := jsToString (JSVal.finite (round9Spec (mkRat 3 10))),
        previousValue := some (JSVal.finite (round9Spec (mkRat 3 10))),
        operation := none, waitingForOperand := true, error := none } := by
  have hval : (mkRat 3 10 : ℚ) = 3 / 10 := by
    rw [Rat.mkRat_eq_divInt, Rat.divInt_eq_div]
    norm_num
  have hb : |(mkRat 3 10 : ℚ) * 1000000000| < 2 ^ 1024 := by
    rw [hval]
    refine lt_jsMax_of_small _ ?_
    have h3 : (3 : ℚ) / 10 * 1000000000 = 300000000 := by norm_num
    rw [h3, abs_of_pos (by norm_num)]
    norm_num
  exact claim3_amended.1 _ none (parseFloat "0.1") Op.add (mkRat 3 10)
    rfl rfl (by decide) (by decide) (by decide) hb

/-!  Digit-sequence lemmas for C9. -/

theorem digitStr_data_length (d : Fin 10) : (digitStr d).data.length = 1 := by
  fin_cases d <;> rfl

theorem digitStr_ne_empty (d : Fin 10) : digitStr d ≠ "" := by
  fin_cases d <;> decide

theorem digitStr_ne_zero_of_ne (d : Fin 10) (hd : d ≠ 0) : digitStr d ≠ "0" := by
  fin_cases d <;> first | exact absurd rfl hd | decide

/-- `inputNumber` with the flag clear on a display other than `"0"`
appends the digit. -/
theorem inputNumber_append (s : CalcState) (num : String)
    (hw : s.waitingForOperand = false) (h0 : s.display ≠ "0") :
    inputNumber s num = { s with display := s.display ++ num } := by
  unfold inputNumber
  rw [if_neg (by simp [hw]), if_neg h0]

/-- A nonempty display with one digit appended is neither empty nor
`"0"`. -/
theorem append_digit_ne (a : String) (d : Fin 10) (ha : a ≠ "") :
    a ++ digitStr d ≠ "0" ∧ a ++ digitStr d ≠ "" := by
  have ha' : a.data.length ≠ 0 := by
    intro hc
    exact ha (String.ext (List.length_eq_zero.mp hc))
  constructor
  · intro hc
    have hdata := congrArg String.data hc
    rw [String.data_append] at hdata
    have hlen := congrArg List.length hdata
    rw [List.length_append, digitStr_data_length] at hlen
    have h1 : (("0" : String).data).length = 1 := rfl
    rw [h1] at hlen
    omega
  · intro hc
    have hdata := congrArg String.data hc
    rw [String.data_append] at hdata
    have hlen := congrArg List.length hdata
    rw [List.length_append, digitStr_data_length] at hlen
    have h1 : (("" : String).data).length = 0 := rfl
    rw [h1] at hlen
    omega

/-- Folding digits over a display other than a lone `"0"` concatenates
them. -/
theorem foldDigits_concat (ds : List (Fin 10)) :
    ∀ s : CalcState, s.waitingForOperand = false →
      s.display ≠ "0" → s.display ≠ "" →
      (foldDigits s ds).display = s.display ++ joinDigits ds := by
  induction ds with
  | nil =>
      intro s _ _ _
      show s.display = s.display ++ joinDigits []
      rw [joinDigits, String.append_empty]
  | cons d t ih =>
      intro s hw h0 hne
      show (foldDigits (inputNumber s (digitStr d)) t).display = _
      rw [inputNumber_append s (digitStr d) hw h0]
      have hd := append_digit_ne s.display d hne
      rw [ih { s with display := s.display ++ digitStr d } hw hd.1 hd.2,
        joinDigits, String.append_assoc]

/-- C9 as stated is false when the first digit is `0`: the code collapses
repeated leading zeros (a lone `"0"` display absorbs a further `0`),
while the claim's formula would keep it.  From the initial state, the
digits `0, 5` give display `"5"`, not `"05"`. -/
theorem claim9_counterexample :
    ¬ (∀ (s : CalcState) (ds : List (Fin 10)), s.waitingForOperand = false →
        (foldDigits s ds).display =
          if s.display = "0" ∧ ds ≠ [] then joinDigits ds
          else s.display ++ joinDigits ds) := by
  intro h
  have h2 := h initState [0, 5] rfl
  exact absurd h2 (by decide)

/-- C9 amended: with the input-mode flag clear, a digit sequence is
appended to any nonempty display other than a lone `"0"`; a lone `"0"`
display is replaced by the first digit — provided that digit is nonzero —
before the remaining digits are appended (repeated leading zeros instead
collapse into the lone `"0"`). -/
theorem claim9_amended :
    (∀ (s : CalcState) (ds : List (Fin 10)), s.waitingForOperand = false →
        s.display ≠ "0" → s.display ≠ "" →
        (foldDigits s ds).display = s.display ++ joinDigits ds) ∧
    (∀ (s : CalcState) (d : Fin 10) (ds : List (Fin 10)),
        s.waitingForOperand = false → s.display = "0" → d ≠ 0 →
        (foldDigits s (d :: ds)).display = joinDigits (d :: ds)) := by
  constructor
  · exact fun s ds hw h0 hne => foldDigits_concat ds s hw h0 hne
  · intro s d ds hw h0 hd
    show (foldDigits (inputNumber s (digitStr d)) ds).display = _
    have hstep : inputNumber s (digitStr d) = { s with display := digitStr d } := by
      unfold inputNumber
      rw [if_neg (by simp [hw]), if_pos h0]
    rw [hstep,
      foldDigits_concat ds { s with display := digitStr d } hw
        (digitStr_ne_zero_of_ne d hd) (digitStr_ne_empty d),
      joinDigits]

/-- Witness for C9 amended: from the initial display `"0"`, the digits
`1, 0` give display `"10"`. -/
theorem claim9_amended_witness :
    (foldDigits initState [1, 0]).display = "10" :=
  (claim9_amended.2 initState 1 [0] rfl rfl (by decide)).trans (by decide)

/-!  Display-shape invariant for C4. -/

/-- The inductive display invariant: the display is either a typed
numeral (digits, at most one dot), or — only while the input-mode flag is
set, i.e. right after an operation produced it — the string rendering of
a numeric result. -/
def DisplayInv (s : CalcState) : Prop :=
  NumeralOnly s.display ∨
    (s.waitingForOperand = true ∧ ∃ v : JSVal, s.display = jsToString v)

theorem displayInv_congr {s t : CalcState}
    (hd : t.display = s.display) (hw : t.waitingForOperand = s.waitingForOperand)
    (h : DisplayInv s) : DisplayInv t := by
  rcases h with h | ⟨hww, v, hv⟩
  · exact Or.inl (hd ▸ h)
  · exact Or.inr ⟨by rw [hw, hww], v, by rw [hd, hv]⟩

theorem digitStr_chars (d : Fin 10) : ∀ c ∈ (digitStr d).data, c.isDigit = true := by
  fin_cases d <;> decide

theorem digitStr_numeral (d : Fin 10) : NumeralOnly (digitStr d) := by
  fin_cases d <;> decide

theorem numeralOnly_append_digits (a b : String) (ha : NumeralOnly a)
    (hb : ∀ c ∈ b.data, c.isDigit = true) : NumeralOnly (a ++ b) := by
  constructor
  · intro c hc
    rw [String.data_append] at hc
    rcases List.mem_append.mp hc with h | h
    · exact ha.1 c h
    · exact Or.inl (hb c h)
  · rw [String.data_append, List.count_append]
    have hz : b.data.count '.' = 0 := by
      rw [List.count_eq_zero]
      intro hmem
      have := hb '.' hmem
      simp at this
    have := ha.2
    omega

theorem numeralOnly_append_dot (a : String) (ha : NumeralOnly a)
    (hdot : '.' ∉ a.data) : NumeralOnly (a ++ ".") := by
  constructor
  · intro c hc
    rw [String.data_append] at hc
    rcases List.mem_append.mp hc with h | h
    · exact ha.1 c h
    · have : c = '.' := by
        have hd : (("." : String).data) = ['.'] := rfl
        rw [hd] at h
        simpa using h
      exact Or.inr this
  · rw [String.data_append, List.count_append]
    have h0 : a.data.count '.' = 0 := List.count_eq_zero.mpr hdot
    have h1 : (("." : String).data).count '.' = 1 := rfl
    omega

theorem displayInv_performOperation (s : CalcState) (nextOp : Option Op)
    (h : DisplayInv s) : DisplayInv (performOperation s nextOp) := by
  by_cases hparse : parseFloat s.display = JSVal.nan
  · rw [performOperation_parsefail s _ hparse]
    exact displayInv_congr rfl rfl h
  · cases hpv : s.previousValue with
    | none =>
        rw [performOperation_noacc s _ hparse hpv]
        rcases h with h | ⟨_, v, hv⟩
        · exact Or.inl h
        · exact Or.inr ⟨rfl, v, hv⟩
    | some pv =>
        cases ho : s.operation with
        | none =>
            rw [performOperation_noop s _ pv hparse hpv ho]
            rcases h with h | ⟨_, v, hv⟩
            · exact Or.inl h
            · exact Or.inr ⟨rfl, v, hv⟩
        | some o =>
            by_cases hdz : o = Op.div ∧ parseFloat s.display = JSVal.finite 0
            · rw [performOperation_divzero s _ pv hpv (hdz.1 ▸ ho) hdz.2]
              exact displayInv_congr rfl rfl h
            · cases hfin : jsIsFinite (rawResult pv o (parseFloat s.display)) with
              | false =>
                  rw [performOperation_overflow s _ pv o hpv ho hparse hdz hfin]
                  exact displayInv_congr rfl rfl h
              | true =>
                  rw [performOperation_success s _ pv o hpv ho hparse hdz hfin]
                  exact Or.inr
                    ⟨rfl, jsRound9 (rawResult pv o (parseFloat s.display)), rfl⟩

theorem displayInv_step (s : CalcState) (e : Event) (h : DisplayInv s) :
    DisplayInv (step s e) := by
  cases e with
  | digit d =>
      show DisplayInv (inputNumber s (digitStr d))
      unfold inputNumber
      split
      · exact Or.inl (digitStr_numeral d)
      · next hw =>
          have hn : NumeralOnly s.display := by
            rcases h with h | ⟨hw2, _⟩
            · exact h
            · exact absurd hw2 (by simpa using hw)
          split
          · exact Or.inl (digitStr_numeral d)
          · exact Or.inl (numeralOnly_append_digits _ _ hn (digitStr_chars d))
  | dot =>
      show DisplayInv (inputDecimal s)
      unfold inputDecimal
      split
      · refine Or.inl ?_
        show NumeralOnly "0."
        decide
      · next hw =>
          have hn : NumeralOnly s.display := by
            rcases h with h | ⟨hw2, _⟩
            · exact h
            · exact absurd hw2 (by simpa using hw)
          split
          · exact h
          · next hdot => exact Or.inl (numeralOnly_append_dot _ hn hdot)
  | opKey o => exact displayInv_performOperation s (some o) h
  | eq =>
      show DisplayInv (calculate s)
      unfold calculate
      rcases displayInv_performOperation s none h with h2 | ⟨_, v, hv⟩
      · exact Or.inl h2
      · exact Or.inr ⟨rfl, v, hv⟩
  | clearKey =>
      refine Or.inl ?_
      show NumeralOnly "0"
      decide

theorem displayInv_run (evs : List Event) : DisplayInv (run evs) := by
  have gen : ∀ (l : List Event) (s : CalcState), DisplayInv s →
      DisplayInv (List.foldl step s l) := by
    intro l
    induction l with
    | nil => exact fun s h => h
    | cons e t ih => exact fun s h => ih _ (displayInv_step s e h)
  exact gen evs initState (Or.inl (by decide))

/-- C4 as stated is false: results carry characters other than digits
and the dot.  `2 - 5 =` is a reachable trace whose final display is
`"-3"`, which contains a minus sign. -/
theorem claim4_counterexample :
    ¬ (∀ s : CalcState, Reachable s → NumeralOnly s.display) := by
  intro h
  exact absurd
    (h (run [Event.digit 2, Event.opKey Op.sub, Event.digit 5, Event.eq])
      ⟨[Event.digit 2, Event.opKey Op.sub, Event.digit 5, Event.eq], rfl⟩)
    (by decide)

/-- C4 amended: in every reachable state the display is either a typed
numeral — digit characters with at most one decimal point — or the
string rendering of a numeric result, which may additionally carry a
leading minus sign, exponential notation, or read `Infinity`. -/
theorem claim4_amended (s : CalcState) (hr : Reachable s) :
    NumeralOnly s.display ∨ ∃ v : JSVal, s.display = jsToString v := by
  obtain ⟨evs, rfl⟩ := hr
  rcases displayInv_run evs with h | ⟨_, v, hv⟩
  · exact Or.inl h
  · exact Or.inr ⟨v, hv⟩

/-- Witness for C4 amended at the reachable `"-3"` state: the display is
the rendering of the numeric result `-3`. -/
theorem claim4_amended_witness :
    NumeralOnly (run [Event.digit 2, Event.opKey Op.sub, Event.digit 5,
      Event.eq]).display ∨
    ∃ v : JSVal, (run [Event.digit 2, Event.opKey Op.sub, Event.digit 5,
      Event.eq]).display = jsToString v :=
  claim4_amended _
    ⟨[Event.digit 2, Event.opKey Op.sub, Event.digit 5, Event.eq], rfl⟩

end Lutha

